import Mathlib

/-!
A verification development for the vector-gateway retrieval service and its
rag_core embedding/reranking library.  Python functions from
`services/vector_gateway/app.py`, `services/rag_core/embed.py`,
`services/rag_core/rerank.py`, `services/rag_core/token_utils.py` and
`services/rag_core/providers/cohere_rerank.py` are shallowly embedded as
executable Lean definitions.  Remote collaborators (the Milvus client, the
rerank microservice, the embedding API and the Cohere API) are modelled as
explicit oracle parameters describing the data they return; Python floats are
modelled as exact rationals; Python exceptions are modelled with `Except`.
-/

namespace VectorGateway

/-- `_normalize_score` from `vector_gateway/app.py`: clamp a numeric value into
`[0, 1]`.  `clampQ` is the numeric branch (`max(0.0, min(1.0, float(val)))`). -/
def clampQ (x : ℚ) : ℚ := max 0 (min 1 x)

/-- `_normalize_score(val)`: `None` (and values `float` rejects, which we fold
into `none`) normalize to `0.0`; numeric values are clamped into `[0,1]`. -/
def normalizeScore (val : Option ℚ) : ℚ :=
  match val with
  | none => 0
  | some x => clampQ x

/-- The entity fields of one Milvus hit that the gateway reads
(`entity.get("chunk_id"/"text"/"file_name"/"mime_type"/"chunk_index")`).
`chunk_index = none` models an absent key. -/
structure Entity where
  chunk_id : String
  text : String
  file_name : String
  mime_type : String
  chunk_index : Option Int
deriving DecidableEq

/-- The metadata dict the search handler builds for one hit:
`{**entity, "distance": distance, "score": normalized}`.  `distance = none`
models an absent or non-numeric distance. -/
structure Meta where
  entity : Entity
  distance : Option ℚ
  score : ℚ
deriving DecidableEq

/-- One intermediate hit dict of the Milvus search path
(`{"doc_id", "text", "score", "metadata"}`). -/
structure HitDict where
  doc_id : String
  text : String
  score : ℚ
  metadata : Meta
deriving DecidableEq

/-- Pydantic `SurroundingChunk`: `{chunk_index, text, page}`. -/
structure SurroundingChunkM where
  chunk_index : Int
  text : String
  page : Int
deriving DecidableEq

/-- Pydantic `SearchHit`. -/
structure SearchHitM where
  doc_id : String
  text : String
  score : ℚ
  metadata : Meta
  surrounding_chunks : List SurroundingChunkM
deriving DecidableEq

/-- Pydantic `SearchResponse` (the wall-clock `latency_ms` field is elided). -/
structure SearchResponseM where
  hits : List SearchHitM
  count : Nat
  backend : String
  collection : String
  reranked : Bool
deriving DecidableEq

/-- One raw element of `results[0]` as returned by `milvus_io.hybrid_search`:
the entity plus its dense `distance` (`none` = absent or non-numeric). -/
structure RawResult where
  entity : Entity
  distance : Option ℚ
deriving DecidableEq

/-- Conversion of one raw Milvus result into a hit dict
(`score = 1.0 - float(distance)` when numeric else `0.0`, then
`_normalize_score`; metadata keeps the raw distance and the normalized
score). -/
def toHitDict (r : RawResult) : HitDict :=
  let score : ℚ := match r.distance with
    | some d => 1 - d
    | none => 0
  { doc_id := r.entity.chunk_id
    text := r.entity.text
    score := clampQ score
    metadata := { entity := r.entity, distance := r.distance, score := clampQ score } }

/-- Pydantic `SearchFilters`. -/
structure SearchFilters where
  file_name : Option String
  file_pattern : Option String
  mime_type : Option String
deriving DecidableEq

/-- Shell-glob matching on character lists: `*` matches any run, `?` any one
character, other characters literally.  Models Python's `fnmatch.fnmatch`
(POSIX case rules) for patterns without bracket expressions, which is the
fragment the gateway's `file_pattern` filter relies on. -/
def globMatch : List Char → List Char → Bool
  | [], [] => true
  | [], _ :: _ => false
  | '*' :: ps, [] => globMatch ps []
  | '*' :: ps, c :: s => globMatch ps (c :: s) || globMatch ('*' :: ps) s
  | '?' :: ps, _ :: s => globMatch ps s
  | '?' :: _, [] => false
  | p :: ps, c :: s => p == c && globMatch ps s
  | _ :: _, [] => false
termination_by ps s => (ps.length, s.length)

/-- `fnmatch.fnmatch(name, pattern)` on the modelled glob fragment. -/
def fnmatchB (name pattern : String) : Bool :=
  globMatch pattern.toList name.toList

/-- A Python truthiness-guarded filter check: `if filters.x and cond: continue`
skips the check entirely when the configured value is the empty string. -/
def truthyCheck (conf : Option String) (check : String → Bool) : Bool :=
  match conf with
  | none => true
  | some s => if s = "" then true else check s

/-- `_apply_filters` from `vector_gateway/app.py`.  The flattened metadata dict
has no `"entity"` key, so `metadata.get("entity", metadata)` is the metadata
itself and the fields read are the entity's `file_name` / `mime_type`. -/
def applyFilters (hits : List HitDict) (filters : Option SearchFilters) : List HitDict :=
  match filters with
  | none => hits
  | some f =>
    hits.filter fun h =>
      let fileName := h.metadata.entity.file_name
      let mime := h.metadata.entity.mime_type
      truthyCheck f.file_name (fun fn => fileName == fn) &&
      truthyCheck f.file_pattern (fun p => fnmatchB fileName p) &&
      truthyCheck f.mime_type (fun m => mime == m)

/-- What the gateway observes of one POST to the rerank service
(`_rerank_documents`'s `try` block):
* `fail` — connection error, timeout, non-2xx status, a non-JSON body, or a
  JSON body that is not a dict (every such case raises inside the `try`);
* `okDict none` — 2xx with a JSON dict lacking the `"indices"` key
  (`data.get("indices", default)` substitutes the passthrough order);
* `okDict (some is)` — 2xx with a JSON dict carrying an integer list. -/
inductive RerankNet where
  | fail : RerankNet
  | okDict : Option (List Int) → RerankNet
deriving DecidableEq

/-- `_rerank_documents` from `vector_gateway/app.py`: returns
`(indices, success)`; empty input short-circuits; any exception yields the
passthrough order with `success = False`. -/
def rerankDocuments (documents : List String) (net : RerankNet) : List Int × Bool :=
  if documents.isEmpty then ([], true)
  else
    match net with
    | .fail => ((List.range documents.length).map Int.ofNat, false)
    | .okDict none => ((List.range documents.length).map Int.ofNat, true)
    | .okDict (some is) => (is, true)

/-- Python list indexing `xs[i]`: non-negative indices from the front,
negative indices from the back; out of range raises (`none`). -/
def pyGet {α : Type} (xs : List α) (i : Int) : Option α :=
  if 0 ≤ i then xs.get? i.toNat
  else if xs.length + i < 0 then none
  else xs.get? (xs.length + i).toNat

/-- The reorder comprehension
`[filtered_hits[i] for i in rerank_indices if i < len(filtered_hits)]`:
indices `i ≥ len` are dropped by the guard; an out-of-range access raises
(IndexError), aborting the comprehension. -/
def reorder (hits : List HitDict) : List Int → Except String (List HitDict)
  | [] => .ok []
  | i :: is =>
    if i < (hits.length : Int) then
      match pyGet hits i with
      | none => .error "list index out of range"
      | some h => (reorder hits is).map (fun l => h :: l)
    else reorder hits is

/-- One chunk row returned by `milvus_io.get_context_chunks`:
`chunk_index = none` models an absent key. -/
structure CtxChunk where
  chunk_index : Option Int
  text : String
  page : Int
  file_name : String
deriving DecidableEq

/-- Oracle for `milvus_io.get_context_chunks(collection, file_name,
chunk_index, window)`; `.error` models a raised exception. -/
def CtxOracle : Type :=
  String → String → Int → Nat → Except String (List CtxChunk)

/-- `_get_surrounding_chunks` from `vector_gateway/app.py`: fetch the window,
drop the hit's own `chunk_index`, project to `SurroundingChunk`
(missing `chunk_index` defaults to `0`, missing `page` to `-1`); any
exception degrades to `[]`. -/
def getSurroundingChunks (ctx : CtxOracle) (collection file_name : String)
    (chunk_index : Int) (window : Nat) : List SurroundingChunkM :=
  if window ≤ 0 then []
  else
    match ctx collection file_name chunk_index window with
    | .error _ => []
    | .ok chunks =>
      (chunks.filter (fun c => c.chunk_index ≠ some chunk_index)).map
        (fun c => { chunk_index := c.chunk_index.getD 0, text := c.text, page := c.page })

/-- Pydantic `SearchRequest` (validated fields). -/
structure SearchReq where
  query : String
  collection : Option String
  top_k : Nat
  context_window : Nat
  filters : Option SearchFilters

/-- `MILVUS_COLLECTION` default. -/
def DEFAULT_COLLECTION : String := "rag_gateway"

/-- The per-hit context-expansion step of the `search` handler: read
`file_name` and `chunk_index` from the hit's metadata (the flattened dict has
no `"entity"` key, so both reads hit the entity fields; a missing
`chunk_index` defaults to `0`), and fetch surrounding chunks only when
`context_window > 0` and `file_name` is non-empty. -/
def attachHit (ctx : CtxOracle) (collection : String) (context_window : Nat)
    (h : HitDict) : SearchHitM :=
  let surrounding :=
    if 0 < context_window then
      let fileName := h.metadata.entity.file_name
      let chunkIndex := h.metadata.entity.chunk_index.getD 0
      if fileName ≠ "" then
        getSurroundingChunks ctx collection fileName chunkIndex context_window
      else []
    else []
  { doc_id := h.doc_id, text := h.text, score := h.score,
    metadata := h.metadata, surrounding_chunks := surrounding }

/-- The rerank block of the `search` handler: skipped for an empty filtered
list (`reranked` stays `False`); otherwise `_rerank_documents` is consulted,
`reranked` records its success flag, and on success the hits are reordered by
the returned indices (dropping `i ≥ len`, indexing Python-style, and
propagating an IndexError). -/
def searchStep (filtered : List HitDict) (net : RerankNet) :
    Except String (List HitDict × Bool) :=
  if filtered.isEmpty then .ok (filtered, false)
  else if (rerankDocuments (filtered.map (·.text)) net).2 then
    (reorder filtered (rerankDocuments (filtered.map (·.text)) net).1).map
      (fun l => (l, true))
  else .ok (filtered, false)

/-- The Milvus branch of the `search` handler in `vector_gateway/app.py`,
from the point where `milvus_io.hybrid_search` has returned `raw` (its
`results[0]`): convert, filter, rerank with graceful fallback, truncate to
`top_k`, expand context, assemble the response.  `.error` models the
`except` clause that maps any raised exception to HTTP 500. -/
def milvusSearch (req : SearchReq) (raw : List RawResult) (net : RerankNet)
    (ctx : CtxOracle) : Except String SearchResponseM :=
  let collection := req.collection.getD DEFAULT_COLLECTION
  let rawHits := raw.map toHitDict
  let filtered := applyFilters rawHits req.filters
  match searchStep filtered net with
  | .error e => .error e
  | .ok (hits1, reranked) =>
    let hits2 := hits1.take req.top_k
    let scored := hits2.map (attachHit ctx collection req.context_window)
    .ok { hits := scored, count := scored.length, backend := "milvus",
          collection := collection, reranked := reranked }

/-- A document stored by the in-memory backend.  Of the caller-supplied
metadata dict only the `"score"` entry is observable in search responses
(`doc.metadata.get("score", 0.0)` for vectorless docs); `metaScore = none`
models an absent or non-numeric entry (both normalize to `0`). -/
structure StoredDocM where
  doc_id : String
  text : String
  metaScore : Option ℚ
  vector : List ℚ
deriving DecidableEq

/-- Ranking relation of the memory backend's
`sorted(scored, key=lambda t: t[1], reverse=True)`: descending score. -/
def rankGE (a b : StoredDocM × ℚ) : Prop := b.2 ≤ a.2

instance : DecidableRel rankGE := fun a b => inferInstanceAs (Decidable (b.2 ≤ a.2))

instance : IsTotal (StoredDocM × ℚ) rankGE := ⟨fun a b => le_total b.2 a.2⟩

instance : IsTrans (StoredDocM × ℚ) rankGE := ⟨fun _ _ _ h1 h2 => le_trans h2 h1⟩

/-- `MemoryBackend.search`: the cosine similarity `_cosine_similarity` uses
floating-point `math.sqrt`, so it enters the model as the abstract function
`simf`; docs whose vector length differs from the query's are skipped, each
survivor is scored `_normalize_score((sim + 1.0) / 2.0)`, and the scored list
is sorted by score descending and truncated to `top_k`. -/
def memoryBackendSearch (simf : List ℚ → List ℚ → ℚ) (store : List StoredDocM)
    (qvec : List ℚ) (top_k : Nat) : List StoredDocM :=
  let scored := (store.filter (fun d => d.vector.length == qvec.length)).map
    (fun d => (d, clampQ ((simf qvec d.vector + 1) / 2)))
  ((List.insertionSort rankGE scored).take top_k).map (·.1)

/-- Memory-path `SearchHit` (the metadata dict is passed through verbatim and
is elided here). -/
structure MemoryHitM where
  doc_id : String
  text : String
  score : ℚ
deriving DecidableEq

/-- Memory-path `SearchResponse`. -/
structure MemoryResponseM where
  hits : List MemoryHitM
  count : Nat
  backend : String
  collection : String
  reranked : Bool
deriving DecidableEq

/-- The memory branch of the `search` handler: empty store short-circuits;
otherwise the backend ranks the store and the handler recomputes each hit's
score as `_normalize_score(_cosine_similarity(qvec, doc.vector))` when the
doc has a vector, else `_normalize_score(doc.metadata.get("score", 0.0))`. -/
def memorySearch (simf : List ℚ → List ℚ → ℚ) (store : List StoredDocM)
    (qvec : List ℚ) (req : SearchReq) : MemoryResponseM :=
  let collection := req.collection.getD DEFAULT_COLLECTION
  if store.length == 0 then
    { hits := [], count := 0, backend := "memory", collection := collection,
      reranked := false }
  else
    let docs := memoryBackendSearch simf store qvec req.top_k
    let hits := docs.map fun d =>
      let score : ℚ := if d.vector ≠ [] then simf qvec d.vector else d.metaScore.getD 0
      { doc_id := d.doc_id, text := d.text, score := clampQ score : MemoryHitM }
    { hits := hits, count := hits.length, backend := "memory",
      collection := collection, reranked := false }

/-- Pydantic validation of `SearchRequest`'s constrained fields: `top_k` has
`ge=1, le=100` plus a `> 0` validator, `context_window` has `ge=0, le=10`;
the `query` field is a plain `str` with no constraint. -/
def searchRequestValid (_query : String) (top_k : Int) (context_window : Int) : Bool :=
  (1 ≤ top_k && top_k ≤ 100) && (0 < top_k) &&
    (0 ≤ context_window && context_window ≤ 10)

/-- `_auth_dependency` from `vector_gateway/app.py`.  Returns `true` when the
request passes and `false` when HTTP 401 is raised.  `authToken` is the
`AUTH_TOKEN` environment value (`none` = unset); `authorization` and
`xApiKey` are the raw header values (`none` = header absent). -/
def authDependency (authToken : Option String)
    (authorization xApiKey : Option String) : Bool :=
  match authToken with
  | none => true
  | some tk =>
    if tk = "" then true
    else
      let token : Option String :=
        match authorization with
        | some a =>
          if a.toLower.startsWith "bearer " then some ((a.drop 7).trim)
          else
            match xApiKey with
            | some x => if x = "" then none else some x.trim
            | none => none
        | none =>
          match xApiKey with
          | some x => if x = "" then none else some x.trim
          | none => none
      token = some tk

/-- The routes the gateway app registers. -/
inductive Route where
  | healthz
  | upsert
  | search
  | collections
  | collectionStats
deriving DecidableEq

/-- Which routes carry `Depends(_auth_dependency)` in their signature:
every endpoint except `GET /healthz`. -/
def routeRequiresAuth : Route → Bool
  | .healthz => false
  | .upsert => true
  | .search => true
  | .collections => true
  | .collectionStats => true

/-- The app-level auth gate: a request on `route` is rejected with 401 exactly
when the route declares the auth dependency and `_auth_dependency` raises. -/
def gatewayAuthPasses (route : Route) (authToken : Option String)
    (authorization xApiKey : Option String) : Bool :=
  if routeRequiresAuth route then authDependency authToken authorization xApiKey
  else true

/-- One document of an `UpsertRequest` (pydantic rejects empty `text`). -/
structure UpsertDocM where
  doc_id : Option String
  text : String
  metaScore : Option ℚ
deriving DecidableEq

/-- `UpsertResponse`. -/
structure UpsertResponseM where
  inserted : Nat
  total : Int
  backend : String
  collection : String
deriving DecidableEq

/-- An HTTP error: status code and detail. -/
structure HttpError where
  status : Nat
  detail : String
deriving DecidableEq

/-- `MemoryBackend.upsert`: raises `RuntimeError("store limit reached")` when
the batch would push the store past the backend's `max_docs` cap; otherwise
extends the store. -/
def memoryBackendUpsert (maxDocs : Nat) (store : List StoredDocM)
    (docs : List StoredDocM) : Except String (List StoredDocM) :=
  if maxDocs < store.length + docs.length then .error "store limit reached"
  else .ok (store ++ docs)

/-- How one stored document is built in the upsert loop:
`doc_id = doc.doc_id or f"doc-{BACKEND.count()+1}"` (Python truthiness, so an
empty id is also replaced). -/
def mkStoredDoc (storeLen : Nat) (doc : UpsertDocM) (vec : List ℚ) : StoredDocM :=
  let docId :=
    match doc.doc_id with
    | some s => if s = "" then "doc-" ++ toString (storeLen + 1) else s
    | none => "doc-" ++ toString (storeLen + 1)
  { doc_id := docId, text := doc.text, metaScore := doc.metaScore, vector := vec }

/-- The insertion loop of the `/upsert` handler's memory branch: each document
is stored by a single-element `BACKEND.upsert`; a raised `RuntimeError`
escapes with the store as inserted so far. -/
def memoryUpsertLoop (maxDocs : Nat) :
    List (UpsertDocM × List ℚ) → List StoredDocM → Nat →
    (List StoredDocM × Nat) ⊕ (List StoredDocM × String)
  | [], store, inserted => .inl (store, inserted)
  | (doc, vec) :: rest, store, inserted =>
    match memoryBackendUpsert maxDocs store [mkStoredDoc store.length doc vec] with
    | .error e => .inr (store, e)
    | .ok store2 => memoryUpsertLoop maxDocs rest store2 (inserted + 1)

/-- The memory branch of the `/upsert` handler in `vector_gateway/app.py`.
`gwMaxDocs` is the module-level `MAX_DOCS`; `backendMaxDocs` the backend's own
cap; `embedRes` models `embed_texts` (`none` = the call raised, propagating as
an unhandled error).  Returns the final store together with either the
response or the HTTP error surfaced (`400` for the capacity check, `500` for
an embedding-count mismatch or an uncaught `RuntimeError`). -/
def memoryUpsert (gwMaxDocs backendMaxDocs : Nat) (store : List StoredDocM)
    (req : List UpsertDocM) (collection : Option String)
    (embedRes : Option (List (List ℚ))) :
    List StoredDocM × (UpsertResponseM ⊕ HttpError) :=
  let coll := collection.getD DEFAULT_COLLECTION
  if gwMaxDocs < store.length + req.length then
    (store, .inr { status := 400, detail := "store limit reached" })
  else
    match embedRes with
    | none => (store, .inr { status := 500, detail := "embed_texts raised" })
    | some vectors =>
      if vectors.length ≠ req.length then
        (store, .inr { status := 500, detail := "embedding failed" })
      else
        match memoryUpsertLoop backendMaxDocs (req.zip vectors) store 0 with
        | .inl (store2, inserted) =>
          (store2, .inl { inserted := inserted, total := (store2.length : Int),
                          backend := "memory", collection := coll })
        | .inr (store2, e) => (store2, .inr { status := 500, detail := e })

end VectorGateway

namespace RagCore

/-- `estimate_tokens` from `rag_core/token_utils.py` in its heuristic branch
(the exact `tiktoken` encoder is an optional external dependency): empty text
counts as `1`, otherwise `max(1, len(text) // 4)`. -/
def estimateTokens (text : String) : Nat :=
  if text = "" then 1 else max 1 (text.length / 4)

/-- The per-input truncation step of `_embed_batch_direct`
(`rag_core/embed.py`): when the token estimate exceeds `max_input_tokens`,
keep the first `max(1, int(len(text) * max_input_tokens / est))` characters
(`int()` truncates, matching `Nat` division under exact arithmetic). -/
def truncateInput (maxInputTokens : Nat) (text : String) : String :=
  let est := estimateTokens text
  if maxInputTokens < est then
    text.take (max 1 (text.length * maxInputTokens / est))
  else text

/-- The batch accumulator of `_embed_batch_direct`, returning the batches
flushed to `client.embeddings.create` in call order: each incoming text is
truncated and re-estimated; the pending batch is flushed first whenever it is
non-empty and adding the text would push `current_tokens` past
`max_tokens_per_batch`; a final non-empty batch is flushed at the end. -/
def embedBatchLoop (maxTokensPerBatch maxInputTokens : Nat) :
    List String → List String → Nat → List (List String)
  | [], batch, _ => if batch.isEmpty then [] else [batch]
  | text :: rest, batch, currentTokens =>
    let t := truncateInput maxInputTokens text
    let est := estimateTokens t
    if ¬ batch.isEmpty ∧ maxTokensPerBatch < currentTokens + est then
      batch :: embedBatchLoop maxTokensPerBatch maxInputTokens rest [t] est
    else
      embedBatchLoop maxTokensPerBatch maxInputTokens rest (batch ++ [t]) (currentTokens + est)

/-- The batches `_embed_batch_direct(texts, …)` sends, in order. -/
def embedBatches (maxTokensPerBatch maxInputTokens : Nat) (texts : List String) :
    List (List String) :=
  embedBatchLoop maxTokensPerBatch maxInputTokens texts [] 0

/-- `_embed_batch_direct` itself: `vectors.extend(...)` after each flush, so
the result is the concatenation of the per-batch outputs of the embedding
API, modelled by the oracle `client`. -/
def embedBatchDirect (client : List String → List (List ℚ))
    (maxTokensPerBatch maxInputTokens : Nat) (texts : List String) : List (List ℚ) :=
  ((embedBatches maxTokensPerBatch maxInputTokens texts).map client).flatten

/-- What one POST to the rerank microservice yields for
`_call_rerank_service` (`rag_core/rerank.py`):
* `fail` — request exception or any other raised error (returns `None`);
* `okNotList` — 2xx JSON whose `"indices"` is missing or not a list
  (logged, returns `None`);
* `okIndices is` — 2xx JSON dict with an integer list. -/
inductive RerankServiceNet where
  | fail : RerankServiceNet
  | okNotList : RerankServiceNet
  | okIndices : List Int → RerankServiceNet
deriving DecidableEq

/-- What one POST to the Cohere rerank API yields: `fail` is a request
exception; `ok results` carries the parsed `results[].{index,
relevance_score}` pairs. -/
inductive CohereNet where
  | fail : CohereNet
  | ok : List (Int × ℚ) → CohereNet
deriving DecidableEq

/-- `_passthrough_order` from `rag_core/rerank.py`: `[0 .. min(n, top_n))`. -/
def passthroughOrder (docs : List String) (topN : Option Nat) : List Int :=
  let n := match topN with
    | some t => min docs.length t
    | none => docs.length
  (List.range n).map Int.ofNat

/-- `_call_rerank_service`: `None` when no service URL is configured, the call
raised, or the payload was not an integer list; otherwise the indices. -/
def callRerankService (serviceUrl : Option String) (net : RerankServiceNet) :
    Option (List Int) :=
  match serviceUrl with
  | none => none
  | some _ =>
    match net with
    | .fail => none
    | .okNotList => none
    | .okIndices is => some is

/-- `_rerank_cohere` from `rag_core/rerank.py`: sorts the parsed results by
`relevance_score` descending (a stable sort, as Python's `sorted`), extracts
indices, truncates to `top_n`; any request exception degrades to the
passthrough order. -/
def rerankCohere (docs : List String) (topN : Option Nat) (net : CohereNet) : List Int :=
  match net with
  | .fail => passthroughOrder docs topN
  | .ok results =>
    let sorted := List.insertionSort (fun a b : Int × ℚ => b.2 ≤ a.2) results
    let indices := sorted.map (·.1)
    match topN with
    | some t => indices.take t
    | none => indices

/-- The rerank configuration state `rerank_documents` consults:
`get_service_url("rerank") or RERANK_SERVICE_URL`, and `get_rerank_settings()`
(`none` = reranking unconfigured). -/
structure RerankSettingsM where
  provider : String
  apiKey : Option String
  baseUrl : Option String
deriving DecidableEq

/-- `rerank_documents` from `rag_core/rerank.py`: empty docs short-circuit;
with `prefer_service` the service is consulted first and its answer returned
verbatim when available; otherwise the configured provider runs (passthrough
when unconfigured, keyless, or unknown).  Of the direct providers the Cohere
path is modelled; Jina and Caikit differ only in payload shape. -/
def rerankDocumentsLib (query : String) (docs : List String) (topN : Option Nat)
    (preferService : Bool) (serviceUrl : Option String) (serviceNet : RerankServiceNet)
    (settings : Option RerankSettingsM) (cohereNet : CohereNet) : List Int :=
  if docs.isEmpty then []
  else
    let viaService := if preferService then callRerankService serviceUrl serviceNet else none
    match viaService with
    | some is => is
    | none =>
      match settings with
      | none => passthroughOrder docs topN
      | some s =>
        if s.provider = "passthrough" ∨ s.provider = "none" ∨ s.provider = "" then
          passthroughOrder docs topN
        else if s.provider = "cohere" then
          match s.apiKey with
          | none => passthroughOrder docs topN
          | some _ =>
            let _ := query
            rerankCohere docs topN cohereNet
        else passthroughOrder docs topN

/-- `RerankResult` from `rag_core/providers/base.py` (the fields
`CohereRerankProvider.rerank` fills). -/
structure RerankResultM where
  indices : List Int
  scores : List ℚ
  model : String
deriving DecidableEq

/-- `CohereRerankProvider.rerank` from
`rag_core/providers/cohere_rerank.py`: empty documents return an empty
result; an empty query returns the passthrough order `[0 .. min(n, top_n))`
with zero scores before any HTTP call; otherwise the API is called, its
results sorted by relevance descending, truncated to `top_n`; a request
exception raises `RuntimeError` (`.error`). -/
def cohereProviderRerank (query : String) (documents : List String)
    (topN : Option Nat) (model : String) (net : CohereNet) :
    Except String RerankResultM :=
  if documents.isEmpty then .ok { indices := [], scores := [], model := model }
  else if query = "" then
    let n := match topN with
      | some t => min documents.length t
      | none => documents.length
    .ok { indices := (List.range n).map Int.ofNat,
          scores := List.replicate n 0, model := model }
  else
    match net with
    | .fail => .error "Cohere rerank failed"
    | .ok results =>
      let sorted := List.insertionSort (fun a b : Int × ℚ => b.2 ≤ a.2) results
      let indices := sorted.map (·.1)
      let scores := sorted.map (·.2)
      match topN with
      | some t => .ok { indices := indices.take t, scores := scores.take t, model := model }
      | none => .ok { indices := indices, scores := scores, model := model }

end RagCore

open VectorGateway RagCore

namespace VectorGateway

lemma clampQ_eq (x : ℚ) : clampQ x = if x ≤ 0 then 0 else if 1 ≤ x then 1 else x := by
  unfold clampQ
  split_ifs with h1 h2
  · rw [min_eq_right (by linarith), max_eq_left h1]
  · rw [min_eq_left h2, max_eq_right zero_le_one]
  · rw [min_eq_right (by linarith), max_eq_right (by linarith)]

lemma clampQ_nonneg (x : ℚ) : 0 ≤ clampQ x := le_max_left _ _

lemma clampQ_le_one (x : ℚ) : clampQ x ≤ 1 := by
  rw [clampQ_eq]
  split_ifs with h1 h2 <;> linarith

lemma clampQ_mono {x y : ℚ} (h : x ≤ y) : clampQ x ≤ clampQ y :=
  max_le_max le_rfl (min_le_min le_rfl h)

/-- The response score of a vectorful memory hit is a monotone function of its
ranking key: `clamp(s,0,1) = clamp(2·clamp((s+1)/2,0,1) − 1, 0, 1)`. -/
lemma clampQ_affine_id (s : ℚ) : clampQ (2 * clampQ ((s + 1) / 2) - 1) = clampQ s := by
  rw [clampQ_eq ((s + 1) / 2), clampQ_eq, clampQ_eq s]
  split_ifs <;> linarith

lemma clampQ_key_mono {s t : ℚ} (h : clampQ ((t + 1) / 2) ≤ clampQ ((s + 1) / 2)) :
    clampQ t ≤ clampQ s := by
  rw [← clampQ_affine_id t, ← clampQ_affine_id s]
  exact clampQ_mono (by linarith)

lemma applyFilters_subset {hits : List HitDict} {f : Option SearchFilters} :
    ∀ h ∈ applyFilters hits f, h ∈ hits := by
  intro h hmem
  cases f with
  | none => exact hmem
  | some f =>
    simp only [applyFilters] at hmem
    exact List.mem_of_mem_filter hmem

lemma reorder_mem {hits : List HitDict} :
    ∀ {is : List Int} {out : List HitDict}, reorder hits is = .ok out →
      ∀ h ∈ out, h ∈ hits := by
  intro is
  induction is with
  | nil =>
    intro out hout h hmem
    simp only [reorder, Except.ok.injEq] at hout
    subst hout
    simp at hmem
  | cons i is ih =>
    intro out hout h hmem
    simp only [reorder] at hout
    split at hout
    · rcases hg : pyGet hits i with _ | hh
      · rw [hg] at hout
        simp at hout
      · rw [hg] at hout
        rcases hr : reorder hits is with e | out'
        · rw [hr] at hout
          simp [Except.map] at hout
        · rw [hr] at hout
          simp only [Except.map, Except.ok.injEq] at hout
          subst hout
          rcases List.mem_cons.mp hmem with rfl | hmem'
          · unfold pyGet at hg
            split at hg
            · exact List.get?_mem hg
            · split at hg
              · simp at hg
              · exact List.get?_mem hg
          · exact ih hr h hmem'
    · exact ih hout h hmem

lemma searchStep_ok_mem {filtered : List HitDict} {net : RerankNet}
    {hits1 : List HitDict} {b : Bool}
    (h : searchStep filtered net = .ok (hits1, b)) : ∀ x ∈ hits1, x ∈ filtered := by
  intro x hx
  unfold searchStep at h
  split at h
  · simp only [Except.ok.injEq, Prod.mk.injEq] at h
    rw [← h.1] at hx
    exact hx
  · split at h
    · rcases hr : reorder filtered (rerankDocuments (filtered.map (·.text)) net).1 with e | out
      · rw [hr] at h
        simp [Except.map] at h
      · rw [hr] at h
        simp only [Except.map, Except.ok.injEq, Prod.mk.injEq] at h
        rw [← h.1] at hx
        exact reorder_mem hr x hx
    · simp only [Except.ok.injEq, Prod.mk.injEq] at h
      rw [← h.1] at hx
      exact hx

/-- Structure of every successful Milvus search response: the hits are some
list of members of the filtered fused hits, truncated to `top_k` and
context-expanded, and `count` is their length. -/
lemma milvusSearch_ok_elim {req : SearchReq} {raw : List RawResult} {net : RerankNet}
    {ctx : CtxOracle} {resp : SearchResponseM}
    (h : milvusSearch req raw net ctx = .ok resp) :
    ∃ (hits1 : List HitDict) (reranked : Bool),
      (∀ x ∈ hits1, x ∈ applyFilters (raw.map toHitDict) req.filters) ∧
      resp.hits = (hits1.take req.top_k).map
        (attachHit ctx (req.collection.getD DEFAULT_COLLECTION) req.context_window) ∧
      resp.count = resp.hits.length ∧ resp.reranked = reranked := by
  unfold milvusSearch at h
  dsimp only at h
  rcases hstep : searchStep (applyFilters (raw.map toHitDict) req.filters) net
    with e | ⟨hits1, reranked⟩
  · rw [hstep] at h
    simp at h
  · rw [hstep] at h
    simp only [Except.ok.injEq] at h
    subst h
    exact ⟨hits1, reranked, searchStep_ok_mem hstep, rfl, rfl, rfl⟩

/-- The ranking key of the memory backend: `clamp((s + 1)/2, 0, 1)` of the
cosine similarity `s = simf qvec d.vector`. -/
def memRankKey (simf : List ℚ → List ℚ → ℚ) (qvec : List ℚ) (d : StoredDocM) : ℚ :=
  clampQ ((simf qvec d.vector + 1) / 2)

lemma memoryBackendSearch_mem {simf : List ℚ → List ℚ → ℚ} {store : List StoredDocM}
    {qvec : List ℚ} {k : Nat} :
    ∀ d ∈ memoryBackendSearch simf store qvec k, d ∈ store := by
  intro d hd
  unfold memoryBackendSearch at hd
  dsimp only at hd
  rcases List.mem_map.mp hd with ⟨p, hp, rfl⟩
  have hp2 : p ∈ List.insertionSort rankGE
      ((store.filter (fun d => d.vector.length == qvec.length)).map
        (fun d => (d, clampQ ((simf qvec d.vector + 1) / 2)))) :=
    List.mem_of_mem_take hp
  have hp3 := (List.perm_insertionSort rankGE _).mem_iff.mp hp2
  rcases List.mem_map.mp hp3 with ⟨d', hd', rfl⟩
  exact List.mem_of_mem_filter hd'

lemma memoryBackendSearch_pairwise (simf : List ℚ → List ℚ → ℚ) (store : List StoredDocM)
    (qvec : List ℚ) (k : Nat) :
    (memoryBackendSearch simf store qvec k).Pairwise
      (fun d1 d2 => memRankKey simf qvec d2 ≤ memRankKey simf qvec d1) := by
  unfold memoryBackendSearch
  dsimp only
  rw [List.pairwise_map]
  have hsorted : List.Pairwise rankGE
      (List.insertionSort rankGE
        ((store.filter (fun d => d.vector.length == qvec.length)).map
          (fun d => (d, clampQ ((simf qvec d.vector + 1) / 2))))) :=
    List.sorted_insertionSort rankGE _
  have htake : List.Pairwise rankGE
      ((List.insertionSort rankGE
        ((store.filter (fun d => d.vector.length == qvec.length)).map
          (fun d => (d, clampQ ((simf qvec d.vector + 1) / 2))))).take k) :=
    List.Pairwise.sublist (List.take_sublist _ _) hsorted
  refine List.Pairwise.imp_of_mem ?_ htake
  intro p q hp hq hpq
  have key_of_mem : ∀ r, r ∈ (List.insertionSort rankGE
      ((store.filter (fun d => d.vector.length == qvec.length)).map
        (fun d => (d, clampQ ((simf qvec d.vector + 1) / 2))))).take k →
      r.2 = memRankKey simf qvec r.1 := by
    intro r hr
    have hr2 := (List.perm_insertionSort rankGE _).mem_iff.mp (List.mem_of_mem_take hr)
    rcases List.mem_map.mp hr2 with ⟨d', _, rfl⟩
    rfl
  have h1 := key_of_mem p hp
  have h2 := key_of_mem q hq
  unfold rankGE at hpq
  rw [h1, h2] at hpq
  exact hpq

/-- The hit list of the memory search response, in terms of the ranked docs. -/
lemma memorySearch_hits (simf : List ℚ → List ℚ → ℚ) (store : List StoredDocM)
    (qvec : List ℚ) (req : SearchReq) :
    (memorySearch simf store qvec req).hits =
      if store.length == 0 then []
      else (memoryBackendSearch simf store qvec req.top_k).map (fun d =>
        { doc_id := d.doc_id, text := d.text,
          score := clampQ (if d.vector ≠ [] then simf qvec d.vector else d.metaScore.getD 0) :
          MemoryHitM }) := by
  unfold memorySearch
  split <;> rfl

lemma memorySearch_count (simf : List ℚ → List ℚ → ℚ) (store : List StoredDocM)
    (qvec : List ℚ) (req : SearchReq) :
    (memorySearch simf store qvec req).count = (memorySearch simf store qvec req).hits.length := by
  unfold memorySearch
  split <;> rfl

lemma length_memoryBackendSearch (simf : List ℚ → List ℚ → ℚ) (store : List StoredDocM)
    (qvec : List ℚ) (k : Nat) :
    (memoryBackendSearch simf store qvec k).length ≤ k := by
  unfold memoryBackendSearch
  dsimp only
  rw [List.length_map]
  exact le_trans (List.length_take_le _ _) le_rfl

lemma pyGet_ofNat (hits : List HitDict) (i : Nat) :
    pyGet hits (Int.ofNat i) = hits.get? i := by
  unfold pyGet
  split
  · simp
  · rename_i hneg
    exact absurd (Int.ofNat_nonneg i) hneg

lemma reorder_map_ofNat (hits : List HitDict) :
    ∀ is : List Nat, (∀ i ∈ is, i < hits.length) →
      reorder hits (is.map Int.ofNat) = .ok (is.filterMap (fun i => hits.get? i)) := by
  intro is
  induction is with
  | nil => intro _; rfl
  | cons i is ih =>
    intro h
    simp only [List.map_cons, reorder]
    have hi : (Int.ofNat i) < (hits.length : Int) :=
      Int.ofNat_lt.mpr (h i (List.mem_cons_self i is))
    rw [if_pos hi, pyGet_ofNat]
    rcases hg : hits.get? i with _ | x
    · exact absurd (List.get?_eq_none.mp hg) (Nat.not_le.mpr (h i (List.mem_cons_self i is)))
    · rw [ih (fun j hj => h j (List.mem_cons_of_mem _ hj))]
      have hg' : hits[i]? = some x := by
        rw [← List.get?_eq_getElem?]
        exact hg
      simp [List.filterMap_cons, hg', Except.map]

lemma range_filterMap_getq (l : List HitDict) :
    (List.range l.length).filterMap (fun i => l.get? i) = l := by
  induction l with
  | nil => rfl
  | cons x xs ih =>
    rw [List.length_cons, List.range_succ_eq_map]
    rw [List.filterMap_cons, List.filterMap_map]
    have hfun : ((fun i => (x :: xs).get? i) ∘ Nat.succ) = (fun i => xs.get? i) := by
      funext i
      rfl
    rw [hfun]
    rw [ih]
    rfl

/-- Applying the passthrough index list `[0 .. len)` reorders nothing. -/
lemma reorder_range (hits : List HitDict) :
    reorder hits ((List.range hits.length).map Int.ofNat) = .ok hits := by
  rw [reorder_map_ofNat hits (List.range hits.length) (fun i hi => List.mem_range.mp hi)]
  rw [range_filterMap_getq]

lemma map_isEmpty_false {l : List HitDict} (h : l.isEmpty = false) :
    (l.map (·.text)).isEmpty = false := by
  cases l with
  | nil => simp at h
  | cons x xs => rfl

/-- A failed rerank call is absorbed: the step returns the filtered hits
unchanged with `reranked = false`. -/
lemma searchStep_fail (filtered : List HitDict) :
    searchStep filtered .fail = .ok (filtered, false) := by
  unfold searchStep
  rcases he : filtered.isEmpty with _ | _
  · have hm := map_isEmpty_false (l := filtered) he
    simp [rerankDocuments, hm]
  · simp [he]

/-- A 2xx dict without an `"indices"` key yields the passthrough order with
`reranked = true`. -/
lemma searchStep_okDict_none (filtered : List HitDict) (h : filtered.isEmpty = false) :
    searchStep filtered (.okDict none) = .ok (filtered, true) := by
  unfold searchStep
  have hm := map_isEmpty_false (l := filtered) h
  simp only [h, Bool.false_eq_true, if_false, rerankDocuments, hm]
  rw [List.length_map]
  rw [reorder_range]
  rfl

/-- A 2xx dict with indices applies them; the step succeeds exactly when the
reorder comprehension does. -/
lemma searchStep_okDict_some (filtered : List HitDict) (h : filtered.isEmpty = false)
    (is : List Int) {out : List HitDict} (hr : reorder filtered is = .ok out) :
    searchStep filtered (.okDict (some is)) = .ok (out, true) := by
  unfold searchStep
  have hm := map_isEmpty_false (l := filtered) h
  simp only [h, Bool.false_eq_true, if_false, rerankDocuments, hm]
  rw [hr]
  rfl

lemma milvusSearch_of_step {req : SearchReq} {raw : List RawResult} {net : RerankNet}
    (ctx : CtxOracle) {hits1 : List HitDict} {b : Bool}
    (h : searchStep (applyFilters (raw.map toHitDict) req.filters) net = .ok (hits1, b)) :
    milvusSearch req raw net ctx =
      .ok { hits := (hits1.take req.top_k).map
              (attachHit ctx (req.collection.getD DEFAULT_COLLECTION) req.context_window),
            count := ((hits1.take req.top_k).map
              (attachHit ctx (req.collection.getD DEFAULT_COLLECTION) req.context_window)).length,
            backend := "milvus", collection := req.collection.getD DEFAULT_COLLECTION,
            reranked := b } := by
  unfold milvusSearch
  dsimp only
  rw [h]

lemma milvusSearch_of_step_error {req : SearchReq} {raw : List RawResult} {net : RerankNet}
    (ctx : CtxOracle) {e : String}
    (h : searchStep (applyFilters (raw.map toHitDict) req.filters) net = .error e) :
    milvusSearch req raw net ctx = .error e := by
  unfold milvusSearch
  dsimp only
  rw [h]

/-- A rerank-service failure is never fatal: the whole Milvus search succeeds
with the filtered fused order truncated and `reranked = false`. -/
lemma milvusSearch_fail (req : SearchReq) (raw : List RawResult) (ctx : CtxOracle) :
    milvusSearch req raw .fail ctx =
      .ok { hits := ((applyFilters (raw.map toHitDict) req.filters).take req.top_k).map
              (attachHit ctx (req.collection.getD DEFAULT_COLLECTION) req.context_window),
            count := (((applyFilters (raw.map toHitDict) req.filters).take req.top_k).map
              (attachHit ctx (req.collection.getD DEFAULT_COLLECTION) req.context_window)).length,
            backend := "milvus", collection := req.collection.getD DEFAULT_COLLECTION,
            reranked := false } :=
  milvusSearch_of_step ctx (searchStep_fail _)

end VectorGateway

namespace VectorGateway

/-- Spec-side reading of the auth claim (refinement counterpart of the code's
token extraction): the request carries an `Authorization: Bearer <t>` header
— a value of bearer scheme (case-insensitive, per HTTP) — whose token `t`
(the remainder after the scheme, surrounding whitespace trimmed) equals the
configured token. -/
def specBearerAuthorized (tk : String) (authorization : Option String) : Prop :=
  match authorization with
  | some a => a.toLower.startsWith "bearer " = true ∧ (a.drop 7).trim = tk
  | none => False

/-- Spec-side reading: the request carries a Bearer-scheme Authorization
header at all (whatever its token). -/
def specHasBearerHeader (authorization : Option String) : Prop :=
  match authorization with
  | some a => a.toLower.startsWith "bearer " = true
  | none => False

/-- Spec-side reading: the request carries an `X-API-Key: <t>` header whose
token `t` (trimmed) equals the configured token. -/
def specApiKeyAuthorized (tk : String) (xApiKey : Option String) : Prop :=
  match xApiKey with
  | some s => s.trim = tk
  | none => False

lemma trim_empty : ("" : String).trim = "" := by
  unfold String.trim
  unfold Substring.trim
  show (match ("" : String).toSubstring with
      | { str := s, startPos := b, stopPos := e } =>
        let b := Substring.takeWhileAux s e Char.isWhitespace b
        let e := Substring.takeRightWhileAux s b Char.isWhitespace e
        ({ str := s, startPos := b, stopPos := e } : Substring)).toString = ""
  dsimp only [String.toSubstring]
  unfold Substring.takeWhileAux
  unfold Substring.takeRightWhileAux
  simp [Substring.toString, String.extract]

end VectorGateway

/-- C8: when AUTH_TOKEN is set and non-empty, `_auth_dependency` raises 401
iff the request carries neither an `Authorization: Bearer <t>` header with
`t = AUTH_TOKEN` nor (absent a Bearer header) an `X-API-Key: <t>` header with
`t = AUTH_TOKEN`; when AUTH_TOKEN is empty or unset every request passes; and
`/healthz` is served without any auth check. -/
theorem claim_c8_auth (tk : String) (authorization xApiKey : Option String) :
    (tk ≠ "" → (authDependency (some tk) authorization xApiKey = false ↔
      ¬ (specBearerAuthorized tk authorization ∨
         (¬ specHasBearerHeader authorization ∧ specApiKeyAuthorized tk xApiKey)))) ∧
    authDependency none authorization xApiKey = true ∧
    authDependency (some "") authorization xApiKey = true ∧
    ∀ tok : Option String, gatewayAuthPasses .healthz tok authorization xApiKey = true := by
  refine ⟨?_, rfl, by simp [authDependency], fun tok => rfl⟩
  intro htk
  unfold authDependency
  dsimp only
  rw [if_neg htk, decide_eq_false_iff_not]
  apply not_congr
  cases authorization with
  | none =>
    cases xApiKey with
    | none => simp [specBearerAuthorized, specHasBearerHeader, specApiKeyAuthorized]
    | some s =>
      by_cases hs : s = ""
      · subst hs
        simp [specBearerAuthorized, specHasBearerHeader, specApiKeyAuthorized,
          trim_empty, Ne.symm htk]
      · simp [specBearerAuthorized, specHasBearerHeader, specApiKeyAuthorized, hs,
          eq_comm]
  | some a =>
    by_cases hb : a.toLower.startsWith "bearer "
    · simp [specBearerAuthorized, specHasBearerHeader, specApiKeyAuthorized, hb,
        eq_comm]
    · cases xApiKey with
      | none =>
        simp [specBearerAuthorized, specHasBearerHeader, specApiKeyAuthorized, hb]
      | some s =>
        by_cases hs : s = ""
        · subst hs
          simp [specBearerAuthorized, specHasBearerHeader, specApiKeyAuthorized, hb,
            trim_empty, Ne.symm htk]
        · simp [specBearerAuthorized, specHasBearerHeader, specApiKeyAuthorized, hb,
            hs, eq_comm]

/-- C8 witness: with token `"secret"` and no credentials the dependency
raises 401, via the claim theorem at a concrete input. -/
theorem claim_c8_auth_witness :
    authDependency (some "secret") none none = false := by
  have h := (claim_c8_auth "secret" none none).1 (by decide)
  refine h.mpr ?_
  rintro (hb | ⟨-, hk⟩)
  · exact hb.elim
  · exact hk.elim

namespace VectorGateway

lemma pyGet_mem {α : Type} {xs : List α} {i : Int} {x : α}
    (h : pyGet xs i = some x) : x ∈ xs := by
  unfold pyGet at h
  split at h
  · exact List.get?_mem h
  · split at h
    · exact absurd h (by simp)
    · exact List.get?_mem h

/-- The reorder comprehension is total (and stays inside the candidate list)
whenever every index is at least `-len`. -/
lemma reorder_total (hits : List HitDict) :
    ∀ is : List Int, (∀ i ∈ is, -(hits.length : Int) ≤ i) →
      ∃ out, reorder hits is = .ok out ∧ ∀ h ∈ out, h ∈ hits := by
  intro is
  induction is with
  | nil => exact fun _ => ⟨[], rfl, by simp⟩
  | cons i is ih =>
    intro hb
    obtain ⟨out, hout, hmem⟩ := ih (fun j hj => hb j (List.mem_cons_of_mem _ hj))
    by_cases hi : i < (hits.length : Int)
    · have hget : ∃ x, pyGet hits i = some x := by
        unfold pyGet
        by_cases hpos : 0 ≤ i
        · rw [if_pos hpos]
          have hlt : i.toNat < hits.length := by omega
          exact ⟨_, List.get?_eq_get hlt⟩
        · rw [if_neg hpos]
          have hnn : ¬ ((hits.length : Int) + i < 0) := by
            have := hb i (List.mem_cons_self i is)
            omega
          rw [if_neg hnn]
          have hlt : ((hits.length : Int) + i).toNat < hits.length := by omega
          exact ⟨_, List.get?_eq_get hlt⟩
      obtain ⟨x, hx⟩ := hget
      refine ⟨x :: out, ?_, ?_⟩
      · simp only [reorder, if_pos hi, hx, hout, Except.map]
      · intro y hy
        rcases List.mem_cons.mp hy with rfl | hy'
        · exact pyGet_mem hx
        · exact hmem y hy'
    · exact ⟨out, by simp only [reorder, if_neg hi, hout], hmem⟩

lemma searchStep_empty {filtered : List HitDict} (net : RerankNet)
    (h : filtered.isEmpty = true) : searchStep filtered net = .ok (filtered, false) := by
  unfold searchStep
  rw [if_pos h]

/-- The spec's response-ordering invariant: hit scores weakly decreasing. -/
def scoresWeaklyDecreasing (hits : List SearchHitM) : Prop :=
  hits.Pairwise (fun a b => b.score ≤ a.score)

/-- A context oracle that returns no chunks (used for concrete scenarios with
`context_window = 0`). -/
def c0Ctx : CtxOracle := fun _ _ _ _ => .ok []

/-- Concrete entities and raw hybrid results: two hits in fused order whose
dense distances are `4/5` then `1/10` (RRF fuses dense and lexical ranks, so
the fused order need not follow the dense distance). -/
def cEntA : Entity := { chunk_id := "a", text := "alpha", file_name := "a.txt",
                        mime_type := "", chunk_index := some 0 }

def cEntB : Entity := { chunk_id := "b", text := "beta", file_name := "a.txt",
                        mime_type := "", chunk_index := some 1 }

def c1Raw : List RawResult := [⟨cEntA, some (4/5)⟩, ⟨cEntB, some (1/10)⟩]

def c1Req : SearchReq := { query := "q", collection := none, top_k := 5,
                           context_window := 0, filters := none }

/-- A one-document memory store for concrete memory-path scenarios. -/
def c1MemDoc : StoredDocM :=
  { doc_id := "d", text := "t", metaScore := none, vector := [1] }

/-- The response the gateway produces for `c1Req`/`c1Raw` when the rerank
call fails: fused order, normalized scores `clamp(1 − d, 0, 1)`. -/
def c1Resp : SearchResponseM :=
  { hits := [ { doc_id := "a", text := "alpha", score := clampQ (1 - 4/5),
                metadata := { entity := cEntA, distance := some (4/5),
                              score := clampQ (1 - 4/5) },
                surrounding_chunks := [] },
              { doc_id := "b", text := "beta", score := clampQ (1 - 1/10),
                metadata := { entity := cEntB, distance := some (1/10),
                              score := clampQ (1 - 1/10) },
                surrounding_chunks := [] } ],
    count := 2, backend := "milvus", collection := DEFAULT_COLLECTION,
    reranked := false }

end VectorGateway

/-- C3 counterexample: the claim says a `/search` request with an empty query
is rejected with HTTP 400, but `SearchRequest` places no constraint on
`query` — the empty query passes validation (with default `top_k = 5`,
`context_window = 0`). -/
theorem claim_c3_counterexample : searchRequestValid "" 5 0 = true := rfl

/-- C3 amended: an empty query is not rejected: it passes request validation
and the pipeline processes it like any other query (here run to a successful
response with the rerank service failing, i.e. pure passthrough). -/
theorem claim_c3_amended :
    ∀ (raw : List RawResult) (ctx : CtxOracle) (c : Option String) (k w : Nat)
      (f : Option SearchFilters),
      searchRequestValid "" 5 0 = true ∧
      ∃ resp : SearchResponseM,
        milvusSearch { query := "", collection := c, top_k := k, context_window := w,
                       filters := f } raw .fail ctx = .ok resp ∧ resp.reranked = false := by
  intro raw ctx c k w f
  exact ⟨rfl, _, milvusSearch_fail _ raw ctx, rfl⟩

/-- C2 counterexample: a 2xx rerank-service response that is a JSON dict
without the `"indices"` key is malformed, yet the response reports
`reranked = true` (the claim requires `reranked = false` for every malformed
response). -/
theorem claim_c2_counterexample :
    (milvusSearch c1Req c1Raw (.okDict none) c0Ctx).toOption.map
      (fun r => r.reranked) = some true := rfl

/-- C2 amended: a rerank-service exception (connection error, timeout,
non-2xx, non-JSON or non-dict body) is never fatal — the response is the
filtered fused order truncated to `top_k` with `reranked = false`; a 2xx JSON
dict yields `reranked = true` with the hits in rerank-output order truncated
to `top_k`, a missing `"indices"` key being treated as passthrough. -/
theorem claim_c2_amended :
    ∀ (req : SearchReq) (raw : List RawResult) (ctx : CtxOracle),
      (milvusSearch req raw .fail ctx = .ok
        { hits := ((applyFilters (raw.map toHitDict) req.filters).take req.top_k).map
            (attachHit ctx (req.collection.getD DEFAULT_COLLECTION) req.context_window),
          count := (((applyFilters (raw.map toHitDict) req.filters).take req.top_k).map
            (attachHit ctx (req.collection.getD DEFAULT_COLLECTION) req.context_window)).length,
          backend := "milvus", collection := req.collection.getD DEFAULT_COLLECTION,
          reranked := false }) ∧
      ((applyFilters (raw.map toHitDict) req.filters).isEmpty = false →
        milvusSearch req raw (.okDict none) ctx = .ok
          { hits := ((applyFilters (raw.map toHitDict) req.filters).take req.top_k).map
              (attachHit ctx (req.collection.getD DEFAULT_COLLECTION) req.context_window),
            count := (((applyFilters (raw.map toHitDict) req.filters).take req.top_k).map
              (attachHit ctx (req.collection.getD DEFAULT_COLLECTION) req.context_window)).length,
            backend := "milvus", collection := req.collection.getD DEFAULT_COLLECTION,
            reranked := true }) ∧
      (∀ (is : List Int) (out : List HitDict),
        (applyFilters (raw.map toHitDict) req.filters).isEmpty = false →
        reorder (applyFilters (raw.map toHitDict) req.filters) is = .ok out →
        milvusSearch req raw (.okDict (some is)) ctx = .ok
          { hits := (out.take req.top_k).map
              (attachHit ctx (req.collection.getD DEFAULT_COLLECTION) req.context_window),
            count := ((out.take req.top_k).map
              (attachHit ctx (req.collection.getD DEFAULT_COLLECTION) req.context_window)).length,
            backend := "milvus", collection := req.collection.getD DEFAULT_COLLECTION,
            reranked := true }) :=
  fun req raw ctx =>
    ⟨milvusSearch_fail req raw ctx,
     fun h => milvusSearch_of_step ctx (searchStep_okDict_none _ h),
     fun is _o h hr => milvusSearch_of_step ctx (searchStep_okDict_some _ h is hr)⟩

/-- C2 amended witness: at the concrete two-hit scenario the 2xx-dict response
without indices yields `reranked = true` and the passthrough hit order. -/
theorem claim_c2_amended_witness :
    (milvusSearch c1Req c1Raw (.okDict none) c0Ctx).toOption.map
      (fun r => (r.reranked, r.hits.map (fun h => h.doc_id))) = some (true, ["a", "b"]) := by
  have h := ((claim_c2_amended c1Req c1Raw c0Ctx).2.1) rfl
  rw [h]
  rfl

/-- C10 counterexample: a rerank index below `-len(filtered_hits)` makes the
reorder comprehension raise IndexError, which the handler surfaces as HTTP
500 — so an integer index list from the service can crash the request. -/
theorem claim_c10_counterexample :
    milvusSearch c1Req c1Raw (.okDict (some [-3])) c0Ctx =
      .error "list index out of range" := rfl

/-- C10 amended: for every integer index list whose entries are all
`≥ -len(filtered_hits)`, applying it never faults: indices `≥ len` are
dropped, negative indices select Python-style from the end, and every
response hit is (the context-expanded image of) an element of the filtered
hit list. -/
theorem claim_c10_amended :
    ∀ (req : SearchReq) (raw : List RawResult) (ctx : CtxOracle) (is : List Int),
      (∀ i ∈ is, -((applyFilters (raw.map toHitDict) req.filters).length : Int) ≤ i) →
      ∃ resp, milvusSearch req raw (.okDict (some is)) ctx = .ok resp ∧
        ∀ h ∈ resp.hits, ∃ h' ∈ applyFilters (raw.map toHitDict) req.filters,
          h = attachHit ctx (req.collection.getD DEFAULT_COLLECTION) req.context_window h' := by
  intro req raw ctx is hb
  have hcommon : ∀ resp, milvusSearch req raw (.okDict (some is)) ctx = .ok resp →
      ∀ h ∈ resp.hits, ∃ h' ∈ applyFilters (raw.map toHitDict) req.filters,
        h = attachHit ctx (req.collection.getD DEFAULT_COLLECTION) req.context_window h' := by
    intro resp heq h hmem
    obtain ⟨hits1, b, hsub, hhits, -, -⟩ := milvusSearch_ok_elim heq
    rw [hhits] at hmem
    rcases List.mem_map.mp hmem with ⟨h', hh', rfl⟩
    exact ⟨h', hsub h' (List.mem_of_mem_take hh'), rfl⟩
  by_cases hemp : (applyFilters (raw.map toHitDict) req.filters).isEmpty
  · have heq := milvusSearch_of_step ctx (searchStep_empty (.okDict (some is)) hemp)
    exact ⟨_, heq, hcommon _ heq⟩
  · have hemp' : (applyFilters (raw.map toHitDict) req.filters).isEmpty = false :=
      Bool.not_eq_true _ ▸ (by simpa using hemp)
    obtain ⟨out, hout, -⟩ := reorder_total _ is hb
    have heq := milvusSearch_of_step ctx (searchStep_okDict_some _ hemp' is hout)
    exact ⟨_, heq, hcommon _ heq⟩

/-- C10 amended witness: a valid index list (here `[1, 0]`, permuting two
hits) is applied without fault — the request succeeds. -/
theorem claim_c10_amended_witness :
    (milvusSearch c1Req c1Raw (.okDict (some [1, 0])) c0Ctx).toOption ≠ none := by
  obtain ⟨resp, heq, -⟩ := claim_c10_amended c1Req c1Raw c0Ctx [1, 0] (by decide)
  rw [heq]
  exact fun h => Option.noConfusion h

/-- C1 counterexample: on the Milvus path the attached scores are the
normalized dense distances while the hit order is the RRF-fused (or reranked)
order, so a 200 response can carry scores that are not weakly decreasing:
with fused results at distances `4/5` then `1/10` and a failed rerank, the
response scores are `0.2, 0.9`. -/
theorem claim_c1_counterexample :
    milvusSearch c1Req c1Raw .fail c0Ctx = .ok c1Resp ∧
    ¬ scoresWeaklyDecreasing c1Resp.hits := by
  refine ⟨rfl, ?_⟩
  intro hpw
  unfold scoresWeaklyDecreasing c1Resp at hpw
  rw [List.pairwise_cons] at hpw
  have h1 := hpw.1 _ (List.mem_cons_self _ _)
  dsimp only at h1
  rw [clampQ_eq, clampQ_eq] at h1
  norm_num at h1

/-- C1 amended: every 200 `/search` response satisfies
`count == len(hits) ≤ top_k` on both backends; the score sequence is weakly
decreasing on the memory path (whenever the stored docs carry non-empty
vectors), while on the Milvus path hits follow the fused/rerank order, whose
attached normalized dense scores need not decrease. -/
theorem claim_c1_amended :
    ∀ (req : SearchReq),
      (∀ (raw : List RawResult) (net : RerankNet) (ctx : CtxOracle)
         (resp : SearchResponseM),
        milvusSearch req raw net ctx = .ok resp →
        resp.count = resp.hits.length ∧ resp.hits.length ≤ req.top_k) ∧
      (∀ (simf : List ℚ → List ℚ → ℚ) (store : List StoredDocM) (qvec : List ℚ),
        (memorySearch simf store qvec req).count =
          (memorySearch simf store qvec req).hits.length ∧
        (memorySearch simf store qvec req).hits.length ≤ req.top_k ∧
        ((∀ d ∈ store, d.vector ≠ []) →
          (memorySearch simf store qvec req).hits.Pairwise
            (fun a b => b.score ≤ a.score))) := by
  intro req
  constructor
  · intro raw net ctx resp h
    obtain ⟨hits1, b, -, hhits, hcount, -⟩ := milvusSearch_ok_elim h
    refine ⟨hcount, ?_⟩
    rw [hhits, List.length_map]
    exact le_trans (List.length_take_le _ _) le_rfl
  · intro simf store qvec
    refine ⟨memorySearch_count simf store qvec req, ?_, ?_⟩
    · rw [memorySearch_hits]
      split
      · simp
      · rw [List.length_map]
        exact length_memoryBackendSearch simf store qvec req.top_k
    · intro hvec
      rw [memorySearch_hits]
      split
      · simp
      · rw [List.pairwise_map]
        refine List.Pairwise.imp_of_mem ?_
          (memoryBackendSearch_pairwise simf store qvec req.top_k)
        intro d1 d2 h1 h2 hr
        have hv1 : d1.vector ≠ [] := hvec d1 (memoryBackendSearch_mem d1 h1)
        have hv2 : d2.vector ≠ [] := hvec d2 (memoryBackendSearch_mem d2 h2)
        dsimp only
        rw [if_pos hv1, if_pos hv2]
        exact clampQ_key_mono hr

/-- C1 amended witness: applied at the concrete Milvus scenario and at a
one-document memory store with a non-empty vector. -/
theorem claim_c1_amended_witness :
    (c1Resp.count = c1Resp.hits.length ∧ c1Resp.hits.length ≤ c1Req.top_k) ∧
    (memorySearch (fun _ _ => 0) [c1MemDoc] [1] c1Req).hits.Pairwise
      (fun a b => b.score ≤ a.score) := by
  constructor
  · exact (claim_c1_amended c1Req).1 c1Raw .fail c0Ctx c1Resp rfl
  · refine ((claim_c1_amended c1Req).2 (fun _ _ => 0) [c1MemDoc] [1]).2.2 ?_
    intro d hd
    rcases List.mem_cons.mp hd with rfl | hd
    · intro hnil
      exact List.noConfusion hnil
    · exact absurd hd (List.not_mem_nil _)

/-- C5: every hit score in every search response lies in `[0,1]`; on the
Milvus path the score is `clamp(1 − distance, 0, 1)` of the hit's own raw
distance (`0` when the distance is absent or non-numeric), and the memory
backend ranks by `clamp((s + 1)/2, 0, 1)` of the cosine similarity `s`. -/
theorem claim_c5_scores :
    ∀ (req : SearchReq),
      (∀ (raw : List RawResult) (net : RerankNet) (ctx : CtxOracle)
         (resp : SearchResponseM),
        milvusSearch req raw net ctx = .ok resp →
        ∀ h ∈ resp.hits, 0 ≤ h.score ∧ h.score ≤ 1 ∧
          h.score = normalizeScore (h.metadata.distance.map (fun d => 1 - d))) ∧
      (∀ (simf : List ℚ → List ℚ → ℚ) (store : List StoredDocM) (qvec : List ℚ),
        (∀ h ∈ (memorySearch simf store qvec req).hits, 0 ≤ h.score ∧ h.score ≤ 1) ∧
        (memoryBackendSearch simf store qvec req.top_k).Pairwise
          (fun d1 d2 => clampQ ((simf qvec d2.vector + 1) / 2) ≤
                        clampQ ((simf qvec d1.vector + 1) / 2))) := by
  intro req
  constructor
  · intro raw net ctx resp hresp h hmem
    obtain ⟨hits1, b, hsub, hhits, -, -⟩ := milvusSearch_ok_elim hresp
    rw [hhits] at hmem
    rcases List.mem_map.mp hmem with ⟨h', hh', rfl⟩
    have hfil := hsub h' (List.mem_of_mem_take hh')
    have hraw := applyFilters_subset h' hfil
    rcases List.mem_map.mp hraw with ⟨r, -, rfl⟩
    refine ⟨clampQ_nonneg _, clampQ_le_one _, ?_⟩
    have hscore : (attachHit ctx (req.collection.getD DEFAULT_COLLECTION)
        req.context_window (toHitDict r)).score = (toHitDict r).score := rfl
    have hmeta : (attachHit ctx (req.collection.getD DEFAULT_COLLECTION)
        req.context_window (toHitDict r)).metadata = (toHitDict r).metadata := rfl
    rw [hscore, hmeta]
    cases hr : r.distance with
    | none =>
      simp only [toHitDict, hr, normalizeScore, Option.map_none']
      rw [clampQ_eq]
      norm_num
    | some d =>
      simp only [toHitDict, hr, normalizeScore, Option.map_some']
  · intro simf store qvec
    constructor
    · intro h hmem
      rw [memorySearch_hits] at hmem
      split at hmem
      · exact absurd hmem (List.not_mem_nil _)
      · rcases List.mem_map.mp hmem with ⟨d, -, rfl⟩
        exact ⟨clampQ_nonneg _, clampQ_le_one _⟩
    · have := memoryBackendSearch_pairwise simf store qvec req.top_k
      simpa [memRankKey] using this

/-- C5 witness: the concrete Milvus response's scores obey the bounds and the
distance-normalization law. -/
theorem claim_c5_scores_witness :
    ∀ h ∈ c1Resp.hits, 0 ≤ h.score ∧ h.score ≤ 1 ∧
      h.score = normalizeScore (h.metadata.distance.map (fun d => 1 - d)) :=
  (claim_c5_scores c1Req).1 c1Raw .fail c0Ctx c1Resp rfl

namespace VectorGateway

/-- What `_get_surrounding_chunks` guarantees when the store returns the
window's chunks: the hit's own index is excluded, window containment and
ascending order transfer from the store's answer, and every attached chunk is
the projection of a returned row. -/
lemma getSurroundingChunks_spec (ctx : CtxOracle) (coll f : String) (c : Int) (w : Nat)
    (chunks : List CtxChunk) (hw : 0 < w) (hctx : ctx coll f c w = .ok chunks)
    (hwin : ∀ ch ∈ chunks, ∃ j : Int, ch.chunk_index = some j ∧ c - w ≤ j ∧ j ≤ c + w)
    (hsorted : chunks.Pairwise (fun a b => a.chunk_index.getD 0 ≤ b.chunk_index.getD 0)) :
    (∀ sc ∈ getSurroundingChunks ctx coll f c w,
      c - w ≤ sc.chunk_index ∧ sc.chunk_index ≤ c + w ∧ sc.chunk_index ≠ c ∧
      ∃ ch ∈ chunks, sc = { chunk_index := ch.chunk_index.getD 0, text := ch.text,
                            page := ch.page }) ∧
    (getSurroundingChunks ctx coll f c w).Pairwise
      (fun a b => a.chunk_index ≤ b.chunk_index) := by
  unfold getSurroundingChunks
  rw [if_neg (by omega), hctx]
  constructor
  · intro sc hsc
    rcases List.mem_map.mp hsc with ⟨ch, hch, rfl⟩
    have hchmem := List.mem_of_mem_filter hch
    have hne : ch.chunk_index ≠ some c := by
      have := List.of_mem_filter hch
      simpa using this
    obtain ⟨j, hj, hj1, hj2⟩ := hwin ch hchmem
    have hgd : ch.chunk_index.getD 0 = j := by rw [hj]; rfl
    refine ⟨?_, ?_, ?_, ch, hchmem, rfl⟩
    · show c - w ≤ ch.chunk_index.getD 0
      rw [hgd]; exact hj1
    · show ch.chunk_index.getD 0 ≤ c + w
      rw [hgd]; exact hj2
    · show ch.chunk_index.getD 0 ≠ c
      rw [hgd]
      intro hjc
      exact hne (by rw [hj, hjc])
  · rw [List.pairwise_map]
    refine List.Pairwise.imp_of_mem ?_ (hsorted.filter _)
    intro a b _ _ hr
    exact hr

end VectorGateway

/-- C6: for every hit expanded with `context_window = W > 0`, provided the
store returns the window `[idx − W, idx + W]` of the hit's file in ascending
`chunk_index` order, every surrounding chunk attached to the hit lies in that
window minus the hit's own index, descends from a row of the hit's file, and
the attached list is ascending in `chunk_index`. -/
theorem claim_c6_surrounding :
    ∀ (req : SearchReq) (raw : List RawResult) (net : RerankNet) (ctx : CtxOracle)
      (resp : SearchResponseM) (chunks : List CtxChunk) (h : SearchHitM),
      milvusSearch req raw net ctx = .ok resp →
      h ∈ resp.hits →
      ctx (req.collection.getD DEFAULT_COLLECTION) h.metadata.entity.file_name
        (h.metadata.entity.chunk_index.getD 0) req.context_window = .ok chunks →
      (∀ ch ∈ chunks, ch.file_name = h.metadata.entity.file_name ∧
        ∃ j : Int, ch.chunk_index = some j ∧
          h.metadata.entity.chunk_index.getD 0 - req.context_window ≤ j ∧
          j ≤ h.metadata.entity.chunk_index.getD 0 + req.context_window) →
      chunks.Pairwise (fun a b => a.chunk_index.getD 0 ≤ b.chunk_index.getD 0) →
      (∀ sc ∈ h.surrounding_chunks,
        h.metadata.entity.chunk_index.getD 0 - req.context_window ≤ sc.chunk_index ∧
        sc.chunk_index ≤ h.metadata.entity.chunk_index.getD 0 + req.context_window ∧
        sc.chunk_index ≠ h.metadata.entity.chunk_index.getD 0 ∧
        ∃ ch ∈ chunks, ch.file_name = h.metadata.entity.file_name ∧
          sc = { chunk_index := ch.chunk_index.getD 0, text := ch.text,
                 page := ch.page }) ∧
      h.surrounding_chunks.Pairwise (fun a b => a.chunk_index ≤ b.chunk_index) := by
  intro req raw net ctx resp chunks h hresp hmem hctx hwin hsorted
  obtain ⟨hits1, b, -, hhits, -, -⟩ := milvusSearch_ok_elim hresp
  rw [hhits] at hmem
  rcases List.mem_map.mp hmem with ⟨h', -, rfl⟩
  by_cases hcw : 0 < req.context_window
  · by_cases hfn : h'.metadata.entity.file_name ≠ ""
    · have hsurr : (attachHit ctx (req.collection.getD DEFAULT_COLLECTION)
          req.context_window h').surrounding_chunks =
          getSurroundingChunks ctx (req.collection.getD DEFAULT_COLLECTION)
            h'.metadata.entity.file_name (h'.metadata.entity.chunk_index.getD 0)
            req.context_window := by
        unfold attachHit
        dsimp only
        rw [if_pos hcw, if_pos hfn]
      have hspec := getSurroundingChunks_spec ctx (req.collection.getD DEFAULT_COLLECTION)
        h'.metadata.entity.file_name (h'.metadata.entity.chunk_index.getD 0)
        req.context_window chunks hcw hctx (fun ch hch => (hwin ch hch).2) hsorted
      refine ⟨?_, ?_⟩
      · intro sc hsc
        rw [hsurr] at hsc
        obtain ⟨h1, h2, h3, ch, hchmem, hcheq⟩ := hspec.1 sc hsc
        exact ⟨h1, h2, h3, ch, hchmem, (hwin ch hchmem).1, hcheq⟩
      · rw [hsurr]
        exact hspec.2
    · have hsurr : (attachHit ctx (req.collection.getD DEFAULT_COLLECTION)
          req.context_window h').surrounding_chunks = [] := by
        unfold attachHit
        dsimp only
        rw [if_pos hcw, if_neg hfn]
      rw [hsurr]
      exact ⟨fun sc hsc => absurd hsc (List.not_mem_nil _), List.Pairwise.nil⟩
  · have hsurr : (attachHit ctx (req.collection.getD DEFAULT_COLLECTION)
        req.context_window h').surrounding_chunks = [] := by
      unfold attachHit
      dsimp only
      rw [if_neg hcw]
    rw [hsurr]
    exact ⟨fun sc hsc => absurd hsc (List.not_mem_nil _), List.Pairwise.nil⟩

namespace VectorGateway

/-- Concrete neighbor-expansion scenario (spec §8 scenario 2): a hit at
`chunk_index 1` of `a.txt` with `context_window 1`; the store returns the
window rows at indices 0 and 2. -/
def c6Ent : Entity := { chunk_id := "b", text := "beta", file_name := "a.txt",
                        mime_type := "", chunk_index := some 1 }

def c6Raw : List RawResult := [⟨c6Ent, some (1/2)⟩]

def c6Req : SearchReq := { query := "beta", collection := none, top_k := 1,
                           context_window := 1, filters := none }

def c6Chunks : List CtxChunk :=
  [ { chunk_index := some 0, text := "alpha", page := -1, file_name := "a.txt" },
    { chunk_index := some 2, text := "gamma", page := -1, file_name := "a.txt" } ]

def c6Ctx : CtxOracle := fun _ _ _ _ => .ok c6Chunks

def c6Hit : SearchHitM :=
  { doc_id := "b", text := "beta", score := clampQ (1 - 1/2),
    metadata := { entity := c6Ent, distance := some (1/2), score := clampQ (1 - 1/2) },
    surrounding_chunks := [ { chunk_index := 0, text := "alpha", page := -1 },
                            { chunk_index := 2, text := "gamma", page := -1 } ] }

def c6Resp : SearchResponseM :=
  { hits := [c6Hit], count := 1, backend := "milvus", collection := DEFAULT_COLLECTION,
    reranked := false }

end VectorGateway

/-- C6 witness: in the concrete scenario the attached surrounding chunks are
exactly the window rows at indices 0 and 2, in ascending order, via the claim
theorem at concrete inputs. -/
theorem claim_c6_surrounding_witness :
    (∀ sc ∈ c6Hit.surrounding_chunks,
      c6Hit.metadata.entity.chunk_index.getD 0 - c6Req.context_window ≤ sc.chunk_index ∧
      sc.chunk_index ≤ c6Hit.metadata.entity.chunk_index.getD 0 + c6Req.context_window ∧
      sc.chunk_index ≠ c6Hit.metadata.entity.chunk_index.getD 0 ∧
      ∃ ch ∈ c6Chunks, ch.file_name = c6Hit.metadata.entity.file_name ∧
        sc = { chunk_index := ch.chunk_index.getD 0, text := ch.text,
               page := ch.page }) ∧
    c6Hit.surrounding_chunks.Pairwise (fun a b => a.chunk_index ≤ b.chunk_index) := by
  refine claim_c6_surrounding c6Req c6Raw .fail c6Ctx c6Resp c6Chunks c6Hit rfl
    (List.mem_cons_self _ _) rfl ?_ ?_
  · intro ch hch
    rcases List.mem_cons.mp hch with rfl | hch
    · exact ⟨rfl, 0, rfl, by decide, by decide⟩
    · rcases List.mem_cons.mp hch with rfl | hch
      · exact ⟨rfl, 2, rfl, by decide, by decide⟩
      · exact absurd hch (List.not_mem_nil _)
  · decide

/-- C4 counterexample: with a rerank-service URL configured (the default
deployment), `rerank_documents` posts to the service even for an empty query
and returns the service's order verbatim — here `[1, 0]`, not the passthrough
order `[0, 1]` the claim requires. -/
theorem claim_c4_counterexample :
    rerankDocumentsLib "" ["a", "b"] none true (some "svc") (.okIndices [1, 0])
      none .fail = [1, 0] ∧
    ([1, 0] : List Int) ≠ passthroughOrder ["a", "b"] none := by
  refine ⟨rfl, ?_⟩
  decide

/-- C4 amended: `rerank_documents` returns `[]` for empty docs under every
configuration; the empty-query passthrough short-circuit (indices
`[0 .. min(n, top_n))`, no remote call) is implemented by
`CohereRerankProvider.rerank`, while `rerank_documents` itself consults the
service / provider for an empty query like any other query. -/
theorem claim_c4_amended :
    (∀ (query : String) (topN : Option Nat) (prefer : Bool) (url : Option String)
       (snet : RerankServiceNet) (settings : Option RerankSettingsM) (cnet : CohereNet),
       rerankDocumentsLib query [] topN prefer url snet settings cnet = []) ∧
    (∀ (docs : List String) (topN : Option Nat) (model : String) (net net' : CohereNet),
       docs ≠ [] →
       cohereProviderRerank "" docs topN model net =
         .ok { indices := passthroughOrder docs topN,
               scores := List.replicate (passthroughOrder docs topN).length 0,
               model := model } ∧
       cohereProviderRerank "" docs topN model net =
         cohereProviderRerank "" docs topN model net') := by
  constructor
  · intro query topN prefer url snet settings cnet
    rfl
  · intro docs topN model net net' hne
    have hemp : docs.isEmpty = false := by
      cases docs with
      | nil => exact absurd rfl hne
      | cons x xs => rfl
    constructor
    · unfold cohereProviderRerank
      rw [hemp]
      simp only [Bool.false_eq_true, if_false, eq_self_iff_true, if_true]
      cases topN with
      | none =>
        simp [passthroughOrder, List.length_map, List.length_range]
      | some t =>
        simp [passthroughOrder, List.length_map, List.length_range]
    · unfold cohereProviderRerank
      rw [hemp]
      simp only [Bool.false_eq_true, if_false, eq_self_iff_true, if_true]

/-- C4 witness: the empty-docs case of `rerank_documents` and the empty-query
case of the Cohere provider at concrete inputs. -/
theorem claim_c4_amended_witness :
    rerankDocumentsLib "q" [] none true none .fail none .fail = [] ∧
    cohereProviderRerank "" ["x"] none "m" .fail =
      .ok { indices := passthroughOrder ["x"] none,
            scores := List.replicate (passthroughOrder ["x"] none).length 0,
            model := "m" } := by
  refine ⟨claim_c4_amended.1 "q" none true none .fail none .fail, ?_⟩
  exact (claim_c4_amended.2 ["x"] none "m" .fail .fail (by simp)).1

namespace RagCore

lemma string_length_take (t : String) (k : Nat) : (t.take k).length = min k t.length := by
  rw [String.take_eq]
  show (t.1.take k).length = min k t.length
  rw [List.length_take]
  cases t
  rfl

/-- The character-ratio truncation really fits: with the heuristic estimator,
a truncated input estimates within `max_input_tokens` (for any positive
cap). -/
lemma truncateInput_fits (maxInput : Nat) (hm : 1 ≤ maxInput) (t : String) :
    estimateTokens (truncateInput maxInput t) ≤ maxInput := by
  unfold truncateInput
  dsimp only
  split
  · rename_i hgt
    have hne : t ≠ "" := by
      intro h0
      rw [h0] at hgt
      rw [show estimateTokens "" = 1 from rfl] at hgt
      omega
    have hest : estimateTokens t = max 1 (t.length / 4) := by
      unfold estimateTokens
      rw [if_neg hne]
    rw [hest] at hgt
    have h2 : 2 ≤ t.length / 4 := by
      by_contra hlt
      push_neg at hlt
      have hb : max 1 (t.length / 4) ≤ 1 := Nat.max_le.mpr ⟨le_rfl, by omega⟩
      omega
    have hgt' : maxInput < t.length / 4 := by
      rw [Nat.max_eq_right (by omega : 1 ≤ t.length / 4)] at hgt
      exact hgt
    rw [hest, Nat.max_eq_right (by omega : 1 ≤ t.length / 4)]
    have hde : t.length * maxInput / (t.length / 4) * (t.length / 4) ≤
        t.length * maxInput := Nat.div_mul_le_self _ _
    have hlen4 : t.length ≤ 4 * (t.length / 4) + 3 := by omega
    have hkey : t.length * maxInput / (t.length / 4) ≤ 4 * maxInput + 2 := by
      by_contra hcon
      push_neg at hcon
      have h5 : (4 * maxInput + 3) * (t.length / 4) ≤
          t.length * maxInput / (t.length / 4) * (t.length / 4) :=
        Nat.mul_le_mul_right _ hcon
      have h6 : t.length * maxInput ≤ (4 * (t.length / 4) + 3) * maxInput :=
        Nat.mul_le_mul_right maxInput hlen4
      have h7 : (4 * maxInput + 3) * (t.length / 4) ≤
          (4 * (t.length / 4) + 3) * maxInput := le_trans h5 (le_trans hde h6)
      have h8 : 4 * (maxInput * (t.length / 4)) + 3 * (t.length / 4) ≤
          4 * (maxInput * (t.length / 4)) + 3 * maxInput := by
        calc 4 * (maxInput * (t.length / 4)) + 3 * (t.length / 4)
            = (4 * maxInput + 3) * (t.length / 4) := by ring
          _ ≤ (4 * (t.length / 4) + 3) * maxInput := h7
          _ = 4 * (maxInput * (t.length / 4)) + 3 * maxInput := by ring
      have h9 : 3 * (t.length / 4) ≤ 3 * maxInput := (Nat.add_le_add_iff_left).mp h8
      omega
    unfold estimateTokens
    split
    · exact hm
    · refine Nat.max_le.mpr ⟨hm, ?_⟩
      have hlt : (t.take (max 1 (t.length * maxInput / (t.length / 4)))).length ≤
          max 1 (t.length * maxInput / (t.length / 4)) := by
        rw [string_length_take]
        exact min_le_left _ _
      have hk : max 1 (t.length * maxInput / (t.length / 4)) ≤ 4 * maxInput + 2 :=
        Nat.max_le.mpr ⟨by omega, hkey⟩
      have hfin : (t.take (max 1 (t.length * maxInput / (t.length / 4)))).length ≤
          4 * maxInput + 2 := le_trans hlt hk
      omega
  · rename_i hle
    omega

/-- Every batch the accumulator flushes fits the token budget or is a single
(oversized) input. -/
lemma embedBatchLoop_budget (maxTok maxInput : Nat) :
    ∀ (texts batch : List String) (cur : Nat),
      cur = (batch.map estimateTokens).sum →
      ((batch.map estimateTokens).sum ≤ maxTok ∨ batch.length ≤ 1) →
      ∀ b ∈ embedBatchLoop maxTok maxInput texts batch cur,
        (b.map estimateTokens).sum ≤ maxTok ∨ b.length = 1 := by
  intro texts
  induction texts with
  | nil =>
    intro batch cur hcur hinv b hb
    unfold embedBatchLoop at hb
    split at hb
    · exact absurd hb (List.not_mem_nil _)
    · rename_i hne
      rcases List.mem_cons.mp hb with rfl | h0
      · rcases hinv with h | h
        · exact Or.inl h
        · right
          cases b with
          | nil => simp at hne
          | cons x xs =>
            simp only [List.length_cons] at h ⊢
            omega
      · exact absurd h0 (List.not_mem_nil _)
  | cons t rest ih =>
    intro batch cur hcur hinv b hb
    unfold embedBatchLoop at hb
    dsimp only at hb
    split at hb
    · rename_i hc
      rcases List.mem_cons.mp hb with rfl | hrec
      · rcases hinv with h | h
        · exact Or.inl h
        · right
          have hne : ¬ b.isEmpty = true := hc.1
          cases b with
          | nil => simp at hne
          | cons x xs =>
            simp only [List.length_cons] at h ⊢
            omega
      · exact ih [truncateInput maxInput t] (estimateTokens (truncateInput maxInput t))
          (by simp) (Or.inr (by simp)) b hrec
    · rename_i hc
      refine ih (batch ++ [truncateInput maxInput t])
        (cur + estimateTokens (truncateInput maxInput t)) ?_ ?_ b hb
      · rw [hcur]
        simp [List.map_append, List.sum_append]
      · rcases not_and_or.mp hc with h | h
        · right
          have hbe : batch = [] := by
            have := not_not.mp h
            simpa using this
          simp [hbe]
        · left
          have hle : cur + estimateTokens (truncateInput maxInput t) ≤ maxTok := by
            omega
          calc ((batch ++ [truncateInput maxInput t]).map estimateTokens).sum
              = (batch.map estimateTokens).sum
                + estimateTokens (truncateInput maxInput t) := by
                simp [List.map_append, List.sum_append]
            _ ≤ maxTok := by rw [← hcur]; exact hle

/-- The concatenation of all flushed batches is the truncated input list, in
order. -/
lemma embedBatchLoop_flatten (maxTok maxInput : Nat) :
    ∀ (texts batch : List String) (cur : Nat),
      (embedBatchLoop maxTok maxInput texts batch cur).flatten =
        batch ++ texts.map (truncateInput maxInput) := by
  intro texts
  induction texts with
  | nil =>
    intro batch cur
    unfold embedBatchLoop
    split
    · rename_i he
      have hbe : batch = [] := by simpa using he
      simp [hbe]
    · simp
  | cons t rest ih =>
    intro batch cur
    unfold embedBatchLoop
    dsimp only
    split
    · simp [ih]
    · rw [ih]
      simp

lemma flatten_map_map (f : String → List ℚ) (L : List (List String)) :
    (L.map (fun b => b.map f)).flatten = L.flatten.map f :=
  (List.map_flatten f L).symm

end RagCore

/-- C7 counterexample: the claim says the direct OpenAI-compatible path also
flushes a batch before exceeding `max_batch` items (the active config's
default is 64), but `_embed_batch_direct` has no item-count check at all: 65
one-character inputs (65 estimated tokens, far under the 3500-token budget)
are sent as a single 65-item batch. -/
theorem claim_c7_counterexample :
    embedBatches 3500 7500 (List.replicate 65 "a") = [List.replicate 65 "a"] ∧
    ¬ (∀ b ∈ embedBatches 3500 7500 (List.replicate 65 "a"), b.length ≤ 64) := by
  refine ⟨rfl, fun hall => ?_⟩
  have hmem : List.replicate 65 "a" ∈ embedBatches 3500 7500 (List.replicate 65 "a") := by
    rw [show embedBatches 3500 7500 (List.replicate 65 "a") = [List.replicate 65 "a"]
      from rfl]
    exact List.mem_cons_self _ _
  have := hall _ hmem
  rw [List.length_replicate] at this
  omega

/-- C7 amended: on the direct OpenAI-compatible path, each input whose token
estimate exceeds `max_tokens_per_input` is truncated by character ratio to
fit; a pending batch is flushed before adding a text would exceed the
`max_tokens_per_batch` budget (so every sent batch fits the budget or is a
single oversized input — there is no `max_batch` item cap on this path); and
the concatenated per-batch outputs preserve input order, one vector per
input. -/
theorem claim_c7_amended :
    ∀ (maxTok maxInput : Nat) (texts : List String) (f : String → List ℚ)
      (client : List String → List (List ℚ)),
      (1 ≤ maxInput → ∀ t : String, estimateTokens (truncateInput maxInput t) ≤ maxInput) ∧
      (∀ b ∈ embedBatches maxTok maxInput texts,
        (b.map estimateTokens).sum ≤ maxTok ∨ b.length = 1) ∧
      embedBatchDirect (fun b => b.map f) maxTok maxInput texts =
        (texts.map (truncateInput maxInput)).map f ∧
      ((∀ b, (client b).length = b.length) →
        (embedBatchDirect client maxTok maxInput texts).length = texts.length) := by
  intro maxTok maxInput texts f client
  refine ⟨fun hm t => truncateInput_fits maxInput hm t, ?_, ?_, ?_⟩
  · intro b hb
    exact embedBatchLoop_budget maxTok maxInput texts [] 0 rfl (Or.inr (by simp)) b hb
  · unfold embedBatchDirect embedBatches
    rw [flatten_map_map, embedBatchLoop_flatten]
    simp
  · intro hclient
    unfold embedBatchDirect
    rw [List.length_flatten, List.map_map]
    rw [List.map_congr_left
      (fun b _ => show (List.length ∘ client) b = List.length b from hclient b)]
    rw [← List.length_flatten]
    unfold embedBatches
    rw [embedBatchLoop_flatten]
    simp

/-- C7 amended witness: truncation fits at a concrete oversized input, and a
two-text embed through a length-preserving client yields one vector per
input. -/
theorem claim_c7_amended_witness :
    estimateTokens (truncateInput 7500 "hello") ≤ 7500 ∧
    (embedBatchDirect (fun b => b.map (fun _ => [(1 : ℚ)])) 3500 7500 ["x", "y"]).length
      = 2 := by
  constructor
  · exact (claim_c7_amended 3500 7500 ["x", "y"] (fun _ => [(1 : ℚ)])
      (fun b => b.map (fun _ => [(1 : ℚ)]))).1 (by omega) "hello"
  · have h := (claim_c7_amended 3500 7500 ["x", "y"] (fun _ => [(1 : ℚ)])
      (fun b => b.map (fun _ => [(1 : ℚ)]))).2.2.2 (fun b => by
        rw [List.length_map])
    simpa using h

namespace VectorGateway

/-- Under the capacity bound, the per-document insertion loop of the memory
upsert succeeds, appending every document. -/
lemma memoryUpsertLoop_ok (maxDocs : Nat) :
    ∀ (pairs : List (UpsertDocM × List ℚ)) (store : List StoredDocM) (acc : Nat),
      store.length + pairs.length ≤ maxDocs →
      ∃ store2, memoryUpsertLoop maxDocs pairs store acc =
          .inl (store2, acc + pairs.length) ∧
        store2.length = store.length + pairs.length := by
  intro pairs
  induction pairs with
  | nil =>
    intro store acc h
    exact ⟨store, by simp [memoryUpsertLoop], by simp⟩
  | cons p rest ih =>
    intro store acc h
    cases p with
    | mk doc vec =>
      unfold memoryUpsertLoop
      have hup : ∀ x : StoredDocM,
          memoryBackendUpsert maxDocs store [x] = .ok (store ++ [x]) := by
        intro x
        unfold memoryBackendUpsert
        rw [if_neg ?bnd]
        case bnd =>
          simp only [List.length_singleton]
          simp only [List.length_cons] at h
          omega
      rw [hup (mkStoredDoc store.length doc vec)]
      have hbound : (store ++ [mkStoredDoc store.length doc vec]).length
          + rest.length ≤ maxDocs := by
        simp only [List.length_append, List.length_singleton]
        simp only [List.length_cons] at h
        omega
      obtain ⟨store2, heq, hlen⟩ := ih (store ++ [mkStoredDoc store.length doc vec])
        (acc + 1) hbound
      have hacc : acc + 1 + rest.length = acc + (rest.length + 1) := by omega
      rw [hacc] at heq
      refine ⟨store2, heq, ?_⟩
      have h1 : (store ++ [mkStoredDoc store.length doc vec]).length
          = store.length + 1 := by simp
      rw [hlen, h1]
      simp only [List.length_cons]
      omega

end VectorGateway

/-- C9: on the memory backend, an `/upsert` that would push the store past
`max_docs` (with the backend cap equal to the gateway's `MAX_DOCS`, the
default configuration) fails with HTTP 400 before any document is embedded or
inserted, leaving the store unchanged; otherwise, given an embedding result
of matching length, all documents are inserted and the response `total`
equals the new store count. -/
theorem claim_c9_upsert :
    ∀ (gwMax : Nat) (store : List StoredDocM) (req : List UpsertDocM)
      (coll : Option String) (embedRes : Option (List (List ℚ)))
      (vectors : List (List ℚ)),
      (gwMax < store.length + req.length →
        memoryUpsert gwMax gwMax store req coll embedRes =
          (store, .inr { status := 400, detail := "store limit reached" }) ∧
        ∀ e', memoryUpsert gwMax gwMax store req coll e' =
          memoryUpsert gwMax gwMax store req coll embedRes) ∧
      (store.length + req.length ≤ gwMax → embedRes = some vectors →
        vectors.length = req.length →
        ∃ (store2 : List StoredDocM) (resp : UpsertResponseM),
          memoryUpsert gwMax gwMax store req coll embedRes = (store2, .inl resp) ∧
          store2.length = store.length + req.length ∧
          resp.inserted = req.length ∧ resp.total = (store2.length : Int)) := by
  intro gwMax store req coll embedRes vectors
  constructor
  · intro hover
    constructor
    · unfold memoryUpsert
      rw [if_pos hover]
    · intro e'
      unfold memoryUpsert
      rw [if_pos hover, if_pos hover]
  · intro hunder hembed hlen
    subst hembed
    unfold memoryUpsert
    rw [if_neg (by omega)]
    dsimp only
    rw [if_neg (by omega : ¬ vectors.length ≠ req.length)]
    have hziplen : (req.zip vectors).length = req.length := by
      rw [List.length_zip, hlen, min_self]
    obtain ⟨store2, heq, hslen⟩ := memoryUpsertLoop_ok gwMax (req.zip vectors) store 0
      (by rw [hziplen]; exact hunder)
    rw [heq]
    refine ⟨store2, _, rfl, ?_, ?_, rfl⟩
    · rw [hslen, hziplen]
    · simp [hziplen]

/-- C9 witness: a one-document upsert into an empty two-slot store succeeds
with `total = 1`, and an upsert over capacity returns 400 with the store
unchanged, via the claim theorem at concrete inputs. -/
theorem claim_c9_upsert_witness :
    (memoryUpsert 2 2 [] [{ doc_id := none, text := "alpha", metaScore := none }]
      none (some [[1]])).1.length = 1 ∧
    memoryUpsert 0 0 [] [{ doc_id := none, text := "alpha", metaScore := none }]
      none none =
      ([], .inr { status := 400, detail := "store limit reached" }) := by
  constructor
  · obtain ⟨store2, resp, heq, hlen, -, -⟩ :=
      (claim_c9_upsert 2 [] [{ doc_id := none, text := "alpha", metaScore := none }]
        none (some [[1]]) [[1]]).2 (by simp) rfl rfl
    rw [heq]
    simpa using hlen
  · exact ((claim_c9_upsert 0 [] [{ doc_id := none, text := "alpha", metaScore := none }]
      none none [[1]]).1 (by simp)).1
